import Mathlib

/-
  Verification of the securefs lite AES-GCM crypt stream
  (src/sources/lite_stream.cpp) against its specification.

  Bytes are modelled as natural numbers; buffers as lists of bytes.
  The underlying stream (StreamBase) is modelled as its byte content,
  together with an explicit trace of the operations the crypt stream
  issues against it, so that frame conditions can be stated.
  The AES-GCM primitive and the CSPRNG are not part of the excerpt and
  are modelled abstractly from the specification.
-/

namespace securefs

/-- Modelled from the spec: mac_size, the GCM authentication tag length,
is fixed at 16 bytes (spec section 3; the accessor lives in lite_stream.h,
which is not part of the excerpt). -/
def macSize : Nat := 16

/-- Modelled from the spec: header_size, the fixed prefix of the underlying
stream holding the masked session key, is 32 bytes (spec section 3). -/
def headerSize : Nat := 32

/-- The open parameters of a crypt stream: per-block nonce length and
plaintext bytes per logical block. -/
structure Params where
  ivSize : Nat
  blockSize : Nat
deriving DecidableEq

/-- Modelled from the spec: underlying_block_size, the ciphertext bytes
per block, equals iv_size + block_size + mac_size (spec section 3). -/
def underlyingBlockSize (p : Params) : Nat := p.ivSize + p.blockSize + macSize

/-- Modelled from the spec: is_all_zeros, the fast all-zeros byte scan
from myutils (spec section 2, primitives). -/
def isAllZeros (l : List Nat) : Bool := l.all (fun b => b == 0)

/-- Modelled from the spec: byte_xor, the fixed-size-buffer XOR from
myutils (spec section 2, primitives): output byte i is input1 byte i
XORed with input2 byte i. -/
def byteXor (a b : List Nat) : List Nat := List.zipWith Nat.xor a b

/-- Modelled from the spec: to_little_endian over uint64, the 8-byte
little-endian encoding of an integer (spec section 2, primitives). -/
def toLittleEndian64 (n : Nat) : List Nat :=
  (List.range 8).map (fun i => n / 256 ^ i % 256)

/-- Modelled from the spec: StreamBase read semantics — read len bytes at
offset, returning the bytes actually available (possibly fewer at EOF). -/
def streamRead (u : List Nat) (off len : Nat) : List Nat :=
  (u.drop off).take len

/-- Modelled from the spec: StreamBase write semantics — writing bytes at
an offset past EOF zero-pads the gap, then splices the bytes in. -/
def streamWrite (u : List Nat) (off : Nat) (bs : List Nat) : List Nat :=
  let padded := u ++ List.replicate (off - u.length) 0
  padded.take off ++ bs ++ padded.drop (off + bs.length)

/-- Modelled from the spec: StreamBase resize semantics — truncate or
zero-extend the content to the requested length. -/
def streamResize (u : List Nat) (n : Nat) : List Nat :=
  u.take n ++ List.replicate (n - u.length) 0

/-- An operation issued by the crypt stream against its underlying
stream; traces of these record the side effects of each code path. -/
inductive UOp where
  | uread (off len : Nat)
  | usize
  | uwrite (off : Nat) (bs : List Nat)
  | uresize (n : Nat)
deriving DecidableEq

/-- Whether an underlying-stream operation mutates the stream. -/
def UOp.isMutation : UOp → Bool
  | UOp.uread _ _ => false
  | UOp.usize => false
  | UOp.uwrite _ _ => true
  | UOp.uresize _ => true

/-- Modelled from the spec: the effect of one underlying-stream operation
on the stream content — reads and size queries leave it unchanged. -/
def applyOp (u : List Nat) : UOp → List Nat
  | UOp.uread _ _ => u
  | UOp.usize => u
  | UOp.uwrite off bs => streamWrite u off bs
  | UOp.uresize n => streamResize u n

/-- The cumulative effect of a trace of underlying-stream operations. -/
def applyOps (u : List Nat) (ops : List UOp) : List Nat := ops.foldl applyOp u

/-- Modelled from the spec: the AES-GCM primitive (aes_gcm_encrypt /
aes_gcm_decrypt from the crypto layer, not part of the excerpt).
encrypt maps (plaintext, aad, key, iv) to (ciphertext, tag); decrypt maps
(ciphertext, aad, key, iv, tag) to (authentication success, plaintext). -/
structure GCMScheme where
  encrypt : List Nat → List Nat → List Nat → List Nat → List Nat × List Nat
  decrypt : List Nat → List Nat → List Nat → List Nat → List Nat → Bool × List Nat

/-- Modelled from the spec: correctness of AES-GCM — decryption with
matching key, IV and AAD inverts encryption and authenticates. -/
def GCMInverts (G : GCMScheme) : Prop :=
  ∀ pt aad key iv,
    G.decrypt (G.encrypt pt aad key iv).1 aad key iv (G.encrypt pt aad key iv).2
      = (true, pt)

/-- Modelled from the spec: AES-GCM length discipline — the ciphertext is
as long as the plaintext and the tag has mac_size bytes. -/
def GCMLengths (G : GCMScheme) : Prop :=
  ∀ pt aad key iv,
    (G.encrypt pt aad key iv).1.length = pt.length
    ∧ (G.encrypt pt aad key iv).2.length = macSize

/-- The error kinds thrown by the crypt stream code under study. -/
inductive Err where
  | invalidArgument
  | messageVerification (id : List Nat) (off : Nat)
deriving DecidableEq

/-- The do-while loop of write_block (lite_stream.cpp lines 103-106):
draw candidate IVs from the CSPRNG until one is not all zeros. The
candidate sequence is the modelled CSPRNG output. -/
def sample_nonzero_iv (ivs : Nat → List Nat)
    (h : ∃ n, isAllZeros (ivs n) = false) : List Nat :=
  ivs (Nat.find h)

/-- The record assembled in m_buffer by write_block (lite_stream.cpp
lines 108-118): IV, then the ciphertext of the input under AAD
id followed by little_endian_u64(block_number), then the GCM tag. -/
def writeBlockRecord (G : GCMScheme) (sk id iv : List Nat) (bn : Nat)
    (input : List Nat) : List Nat :=
  iv ++ ((G.encrypt input (id ++ toLittleEndian64 bn) sk iv).1
    ++ (G.encrypt input (id ++ toLittleEndian64 bn) sk iv).2)

/-- LiteAESGCMCryptStream::write_block (lite_stream.cpp lines 96-123):
sample a non-zero IV, encrypt the input with AAD bound to (id, block
number), and write IV, ciphertext and tag to the underlying stream at
block_number * underlying_block_size + header_size. Returns the updated
underlying stream and the trace of issued operations. -/
def write_block (p : Params) (G : GCMScheme) (sk id : List Nat)
    (ivs : Nat → List Nat) (h : ∃ n, isAllZeros (ivs n) = false)
    (u : List Nat) (bn : Nat) (input : List Nat) : List Nat × List UOp :=
  let record := writeBlockRecord G sk id (sample_nonzero_iv ivs h) bn input
  let off := bn * underlyingBlockSize p + headerSize
  (streamWrite u off record, [UOp.uwrite off record])

/-- The aes_gcm_decrypt call of read_block (lite_stream.cpp lines 79-89)
with its exact arguments: ciphertext at offset iv_size of the scratch
buffer, of length rc - iv_size - mac_size; AAD id followed by
little_endian_u64(block_number); IV the scratch prefix; tag the last
mac_size bytes of the record. -/
def decryptCall (p : Params) (G : GCMScheme) (sk id : List Nat) (bn : Nat)
    (buf : List Nat) : Bool × List Nat :=
  G.decrypt ((buf.drop p.ivSize).take (buf.length - p.ivSize - macSize))
    (id ++ toLittleEndian64 bn) sk (buf.take p.ivSize)
    (buf.drop (buf.length - macSize))

/-- LiteAESGCMCryptStream::read_block after the underlying read
(lite_stream.cpp lines 62-93), as a function of the bytes the underlying
read returned. Yields the returned byte count together with the bytes
deposited in the output buffer, or the thrown error. -/
def readBlockAux (p : Params) (G : GCMScheme) (sk id : List Nat)
    (check : Bool) (bn : Nat) (buf : List Nat) :
    Except Err (Nat × List Nat) :=
  let rc := buf.length
  if rc ≤ macSize + p.ivSize then Except.ok (0, [])
  else if underlyingBlockSize p < rc then Except.error Err.invalidArgument
  else
    let outSize := rc - p.ivSize - macSize
    if isAllZeros buf then Except.ok (outSize, List.replicate p.blockSize 0)
    else
      let sp := decryptCall p G sk id bn buf
      if check && !sp.1 then
        Except.error (Err.messageVerification id (bn * p.blockSize))
      else Except.ok (outSize, sp.2)

/-- LiteAESGCMCryptStream::read_block (lite_stream.cpp lines 57-94):
read one underlying block record at header_size +
underlying_block_size * block_number and decode it. Returns the result
and the trace of operations issued against the underlying stream. -/
def read_block (p : Params) (G : GCMScheme) (sk id : List Nat)
    (check : Bool) (u : List Nat) (bn : Nat) :
    Except Err (Nat × List Nat) × List UOp :=
  let off := headerSize + underlyingBlockSize p * bn
  (readBlockAux p G sk id check bn (streamRead u off (underlyingBlockSize p)),
   [UOp.uread off (underlyingBlockSize p)])

/-- LiteAESGCMCryptStream::size (lite_stream.cpp lines 125-136): the
logical plaintext size computed from the underlying stream size, with
the trace of operations issued (one size query). -/
def size (p : Params) (u : List Nat) : Nat × List UOp :=
  let underlying_size := u.length
  if underlying_size ≤ headerSize then (0, [UOp.usize])
  else
    let remaining := underlying_size - headerSize
    let num_blocks := remaining / underlyingBlockSize p
    let residue := remaining % underlyingBlockSize p
    (num_blocks * p.blockSize +
      (if residue > p.ivSize + macSize then residue - p.ivSize - macSize else 0),
     [UOp.usize])

/-- The logical-size formula exactly as the specification states it
(spec section 4.4), for comparison with the size function above. -/
def sizeSpec (p : Params) (U : Nat) : Nat :=
  if U ≤ headerSize then 0
  else
    (U - headerSize) / underlyingBlockSize p * p.blockSize +
      (if (U - headerSize) % underlyingBlockSize p > p.ivSize + macSize
       then (U - headerSize) % underlyingBlockSize p - p.ivSize - macSize
       else 0)

/-- LiteAESGCMCryptStream::adjust_logical_size (lite_stream.cpp lines
138-145), translated with the C++ operator precedence the source
actually has: the resize argument is the conditional
(header_size + new_blocks * underlying_block_size + residue > 0)
selecting residue + iv_size + mac_size or 0, because + binds tighter
than the comparison and the comparison tighter than the ternary. -/
def adjust_logical_size (p : Params) (u : List Nat) (new_length : Nat) :
    List Nat × List UOp :=
  let new_blocks := new_length / p.blockSize
  let residue := new_length % p.blockSize
  let target :=
    if headerSize + new_blocks * underlyingBlockSize p + residue > 0
    then residue + p.ivSize + macSize
    else 0
  (streamResize u target, [UOp.uresize target])

/-- Modelled from the spec: the intended resize target of
adjust_logical_size per spec section 4.4 — header_size +
q * underlying_block_size plus, when the residue r is positive,
r + iv_size + mac_size. -/
def adjustLogicalSizeSpec (p : Params) (L : Nat) : Nat :=
  headerSize + L / p.blockSize * underlyingBlockSize p +
    (if L % p.blockSize > 0 then L % p.blockSize + p.ivSize + macSize else 0)

/-- LiteAESGCMCryptStream constructor (lite_stream.cpp lines 11-49):
validate the parameters, read the 32-byte header, and either generate a
fresh session key and write the masked header (empty stream), recover
the session key by unmasking (full header), or fail (partial header).
The underlying stream is an Option to model the null-pointer check.
rand_key models the generate_random output. Returns the derived session
key and the resulting underlying stream, plus the operation trace.
The stored-only id and check fields do not affect construction and are
omitted. -/
def construct (p : Params) (stream : Option (List Nat))
    (master_key rand_key : List Nat) :
    Except Err (List Nat × List Nat) × List UOp :=
  if p.ivSize < 12 ∨ 32 < p.ivSize then (Except.error Err.invalidArgument, [])
  else
    match stream with
    | none => (Except.error Err.invalidArgument, [])
    | some u =>
      if p.blockSize < 32 then (Except.error Err.invalidArgument, [])
      else
        let header := streamRead u 0 32
        if header.length = 0 then
          let hdr := byteXor rand_key master_key
          (Except.ok (rand_key, streamWrite u 0 hdr),
           [UOp.uread 0 32, UOp.uwrite 0 hdr])
        else if header.length = 32 then
          (Except.ok (byteXor header master_key, u), [UOp.uread 0 32])
        else (Except.error Err.invalidArgument, [UOp.uread 0 32])

/-- A concrete scheme satisfying the GCM laws, used to instantiate
witnesses: the ciphertext is the plaintext and authentication always
succeeds. -/
def idScheme : GCMScheme where
  encrypt := fun pt _ _ _ => (pt, List.replicate macSize 0)
  decrypt := fun ct _ _ _ _ => (true, ct)

/-- A concrete scheme whose authentication always fails, used to
instantiate witnesses for the verification-failure path. -/
def failScheme : GCMScheme where
  encrypt := fun pt _ _ _ => (pt, List.replicate macSize 0)
  decrypt := fun ct _ _ _ _ => (false, ct)

/-- A concrete CSPRNG candidate sequence whose first draw is already a
non-zero IV, used to instantiate witnesses. -/
def oneIvs : Nat → List Nat := fun _ => List.replicate 12 1

/-- The witness CSPRNG sequence produces a non-zero candidate. -/
theorem oneIvs_has_nonzero : ∃ n, isAllZeros (oneIvs n) = false :=
  ⟨0, by decide⟩

/-- Reading back a region that was just written to the tail of the stream
returns exactly the written bytes (clipped to the requested length). -/
theorem streamRead_streamWrite (u : List Nat) (off len : Nat) (bs : List Nat)
    (h : u.length ≤ off + bs.length) :
    streamRead (streamWrite u off bs) off len = bs.take len := by
  have hdrop : (u ++ List.replicate (off - u.length) 0).drop (off + bs.length) = [] := by
    apply List.drop_eq_nil_of_le
    simp only [List.length_append, List.length_replicate]
    omega
  have htk : ((u ++ List.replicate (off - u.length) 0).take off).length = off := by
    simp only [List.length_take, List.length_append, List.length_replicate]
    omega
  simp only [streamRead, streamWrite]
  rw [hdrop, List.append_nil, List.drop_left' htk]

/-- Reading the whole stream from offset 0 returns the full content. -/
theorem streamRead_all (u : List Nat) (n : Nat) (h : u.length ≤ n) :
    streamRead u 0 n = u := by
  simp only [streamRead, List.drop_zero]
  exact List.take_of_length_le h

/-- Writing at offset 0 of an empty stream stores exactly the bytes. -/
theorem streamWrite_nil (bs : List Nat) : streamWrite [] 0 bs = bs := by
  simp [streamWrite]

/-- The all-zeros scan distributes over concatenation. -/
theorem isAllZeros_append (a b : List Nat) :
    isAllZeros (a ++ b) = (isAllZeros a && isAllZeros b) := by
  simp [isAllZeros]

/-- XORing twice with the same buffer recovers the original buffer. -/
theorem byteXor_cancel (a : List Nat) (b : List Nat) (h : a.length = b.length) :
    byteXor (byteXor a b) b = a := by
  induction a generalizing b with
  | nil => cases b <;> simp_all [byteXor]
  | cons x xs ih =>
    cases b with
    | nil => simp_all
    | cons y ys =>
      simp only [byteXor, List.zipWith_cons_cons, List.cons.injEq] at ih ⊢
      refine ⟨Nat.xor_cancel_right y x, ih ys (by simpa using h)⟩

/-- If masking with b and unmasking with b' gives back the original
buffer, the two masks agree. -/
theorem byteXor_cancel_inj (a b b' : List Nat) (hab : a.length = b.length)
    (hbb : b.length = b'.length) (h : byteXor (byteXor a b) b' = a) : b = b' := by
  induction a generalizing b b' with
  | nil =>
    cases b <;> cases b' <;> simp_all
  | cons x xs ih =>
    cases b with
    | nil => exact absurd hab (by simp)
    | cons y ys =>
      cases b' with
      | nil => exact absurd hbb (by simp)
      | cons z zs =>
        simp only [byteXor, List.zipWith_cons_cons, List.cons.injEq] at h
        obtain ⟨h1, h2⟩ := h
        have h1' : x ^^^ y ^^^ z = x := h1
        have hxy : x ^^^ y = x ^^^ z := by
          calc x ^^^ y = x ^^^ y ^^^ z ^^^ z := (Nat.xor_cancel_right z (x ^^^ y)).symm
            _ = x ^^^ z := by rw [h1']
        have hyz : y = z := by
          calc y = x ^^^ x ^^^ y := by rw [Nat.xor_self, Nat.zero_xor]
            _ = x ^^^ (x ^^^ y) := Nat.xor_assoc x x y
            _ = x ^^^ (x ^^^ z) := by rw [hxy]
            _ = x ^^^ x ^^^ z := (Nat.xor_assoc x x z).symm
            _ = z := by rw [Nat.xor_self, Nat.zero_xor]
        have htail : ys = zs :=
          ih ys zs (by simpa using hab) (by simpa using hbb) h2
        simp [hyz, htail]

/-- C4: for every underlying stream size U, size() returns 0 when
U ≤ header_size, and otherwise num_blocks * block_size plus, when the
residue exceeds iv_size + mac_size, residue - iv_size - mac_size; a
ragged tail of at most iv_size + mac_size bytes contributes nothing. -/
theorem size_matches_spec (p : Params) (u : List Nat) :
    (size p u).1 = sizeSpec p u.length
    ∧ (headerSize < u.length →
        (u.length - headerSize) % underlyingBlockSize p ≤ p.ivSize + macSize →
        (size p u).1
          = (u.length - headerSize) / underlyingBlockSize p * p.blockSize) := by
  constructor
  · simp only [size, sizeSpec]
    split <;> rfl
  · intro h1 h2
    simp only [size]
    rw [if_neg (by omega), if_neg (by omega)]
    simp

/-- Witness for C4: a stream of 112 bytes with iv_size 12 and block_size
32 has a 20-byte ragged tail below the iv_size + mac_size threshold and
a logical size of exactly one block. -/
theorem size_matches_spec_witness :
    headerSize < (List.replicate 112 0 : List Nat).length
    ∧ (size ⟨12, 32⟩ (List.replicate 112 0)).1
        = ((List.replicate 112 0 : List Nat).length - headerSize)
            / underlyingBlockSize ⟨12, 32⟩ * 32 :=
  ⟨by decide,
   (size_matches_spec ⟨12, 32⟩ (List.replicate 112 0)).2 (by decide) (by decide)⟩

/-- C1: adjust_logical_size does not resize to header_size +
q * underlying_block_size + (r > 0 ? r + iv_size + mac_size : 0); with
iv_size 12 and block_size 32, truncating to logical length 32 resizes
the underlying stream to 28 bytes, while the stated formula yields 92:
the C++ conditional-operator precedence drops the whole-block term. -/
theorem adjust_logical_size_code_divergence :
    (adjust_logical_size ⟨12, 32⟩ (List.replicate 92 0) 32).2 = [UOp.uresize 28]
    ∧ adjustLogicalSizeSpec ⟨12, 32⟩ 32 = 92
    ∧ (28 : Nat) ≠ 92 := by
  refine ⟨by decide, by decide, by decide⟩

/-- C10: read_block and size issue only non-mutating operations against
the underlying stream, so its content (hence also its size) is the same
before and after the call, whatever the outcome of the decode. -/
theorem read_and_size_no_mutation (p : Params) (G : GCMScheme)
    (sk id : List Nat) (check : Bool) (u : List Nat) (bn : Nat) :
    applyOps u (read_block p G sk id check u bn).2 = u
    ∧ ((read_block p G sk id check u bn).2.all fun op => !op.isMutation) = true
    ∧ applyOps u (size p u).2 = u
    ∧ ((size p u).2.all fun op => !op.isMutation) = true := by
  have hs : (size p u).2 = [UOp.usize] := by
    simp only [size]
    split <;> rfl
  refine ⟨rfl, rfl, ?_, ?_⟩ <;> rw [hs] <;> rfl

/-- C7: classification of read_block by the underlying read count rc:
rc ≤ iv_size + mac_size returns 0 (past EOF); rc > underlying_block_size
throws InvalidArgument; otherwise the code proceeds with out_size =
rc - iv_size - mac_size, a value in the interval from 1 to block_size,
returning it unless verification throws. -/
theorem read_block_rc_classification (p : Params) (G : GCMScheme)
    (sk id : List Nat) (check : Bool) (bn : Nat) (buf : List Nat) :
    (buf.length ≤ p.ivSize + macSize →
        readBlockAux p G sk id check bn buf = Except.ok (0, []))
    ∧ (underlyingBlockSize p < buf.length →
        readBlockAux p G sk id check bn buf = Except.error Err.invalidArgument)
    ∧ (p.ivSize + macSize < buf.length → buf.length ≤ underlyingBlockSize p →
        1 ≤ buf.length - p.ivSize - macSize
        ∧ buf.length - p.ivSize - macSize ≤ p.blockSize
        ∧ ((∃ out, readBlockAux p G sk id check bn buf
              = Except.ok (buf.length - p.ivSize - macSize, out))
            ∨ readBlockAux p G sk id check bn buf
              = Except.error (Err.messageVerification id (bn * p.blockSize)))) := by
  have hUBS : underlyingBlockSize p = p.ivSize + p.blockSize + macSize := rfl
  refine ⟨?_, ?_, ?_⟩
  · intro h
    simp only [readBlockAux]
    rw [if_pos (by omega)]
  · intro h
    simp only [readBlockAux]
    rw [if_neg (by omega), if_pos h]
  · intro h1 h2
    refine ⟨by omega, by omega, ?_⟩
    simp only [readBlockAux]
    rw [if_neg (by omega), if_neg (by omega)]
    by_cases hz : isAllZeros buf = true
    · rw [if_pos hz]
      exact Or.inl ⟨_, rfl⟩
    · rw [if_neg hz]
      by_cases hc : (check && !(decryptCall p G sk id bn buf).1) = true
      · rw [if_pos hc]
        exact Or.inr rfl
      · rw [if_neg hc]
        exact Or.inl ⟨_, rfl⟩

/-- Witness for C7: a 40-byte record with iv_size 12 lies strictly
between the EOF threshold 28 and the underlying block size 60, and
read_block proceeds with out_size 12, within bounds. -/
theorem read_block_rc_classification_witness :
    12 + macSize < (List.replicate 40 1 : List Nat).length
    ∧ (1 ≤ (List.replicate 40 1 : List Nat).length - 12 - macSize
      ∧ (List.replicate 40 1 : List Nat).length - 12 - macSize ≤ 32
      ∧ ((∃ out, readBlockAux ⟨12, 32⟩ idScheme [] [] true 0 (List.replicate 40 1)
            = Except.ok ((List.replicate 40 1 : List Nat).length - 12 - macSize, out))
          ∨ readBlockAux ⟨12, 32⟩ idScheme [] [] true 0 (List.replicate 40 1)
            = Except.error (Err.messageVerification [] (0 * 32)))) :=
  ⟨by decide,
   (read_block_rc_classification ⟨12, 32⟩ idScheme [] [] true 0
      (List.replicate 40 1)).2.2 (by decide) (by decide)⟩

/-- C3 counterexample: with iv_size 12 and block_size 32, an all-zero
underlying record of 40 bytes (strictly between iv_size + mac_size and
underlying_block_size) makes read_block return byte count 12, not the
full block_size 32 the claim asserts the caller observes. -/
theorem read_block_sparse_counterexample :
    (read_block ⟨12, 32⟩ idScheme [] [] true (List.replicate 72 0) 0).1
      = Except.ok (12, List.replicate 32 0)
    ∧ (12 : Nat) ≠ 32 := by
  refine ⟨rfl, by decide⟩

/-- C3 (amended): if the underlying read returns rc all-zero bytes with
iv_size + mac_size < rc ≤ underlying_block_size, read_block fills the
output buffer with block_size zero bytes, performs no GCM decryption
(the result is independent of the cipher), and returns out_size =
rc - iv_size - mac_size; the caller observes a full block of zeros
exactly when rc = underlying_block_size. -/
theorem read_block_sparse_path (p : Params) (G : GCMScheme)
    (sk id : List Nat) (check : Bool) (bn : Nat) (buf : List Nat)
    (h1 : p.ivSize + macSize < buf.length)
    (h2 : buf.length ≤ underlyingBlockSize p)
    (hz : isAllZeros buf = true) :
    readBlockAux p G sk id check bn buf
      = Except.ok (buf.length - p.ivSize - macSize, List.replicate p.blockSize 0)
    ∧ (∀ G' : GCMScheme, readBlockAux p G' sk id check bn buf
        = readBlockAux p G sk id check bn buf)
    ∧ (buf.length = underlyingBlockSize p →
        buf.length - p.ivSize - macSize = p.blockSize) := by
  have hUBS : underlyingBlockSize p = p.ivSize + p.blockSize + macSize := rfl
  have heq : ∀ G'' : GCMScheme, readBlockAux p G'' sk id check bn buf
      = Except.ok (buf.length - p.ivSize - macSize, List.replicate p.blockSize 0) := by
    intro G''
    simp only [readBlockAux]
    rw [if_neg (by omega), if_neg (by omega), if_pos hz]
  exact ⟨heq G, fun G' => (heq G').trans (heq G).symm, fun h => by omega⟩

/-- Witness for C3 (amended): a 40-byte all-zero record with iv_size 12
decodes to 12 zero bytes reported, with the buffer zero-filled over the
whole block. -/
theorem read_block_sparse_path_witness :
    isAllZeros (List.replicate 40 0) = true
    ∧ readBlockAux ⟨12, 32⟩ idScheme [] [] false 3 (List.replicate 40 0)
        = Except.ok ((List.replicate 40 0 : List Nat).length - 12 - macSize,
            List.replicate 32 0) :=
  ⟨by decide,
   (read_block_sparse_path ⟨12, 32⟩ idScheme [] [] false 3 (List.replicate 40 0)
      (by decide) (by decide) (by decide)).1⟩

/-- C5: for a record that reaches the GCM-decrypt step, read_block
throws MessageVerification carrying (id, block_number * block_size) iff
decryption reports failure and check is true; with check false it
returns out_size = rc - iv_size - mac_size regardless. -/
theorem read_block_verification (p : Params) (G : GCMScheme)
    (sk id : List Nat) (check : Bool) (bn : Nat) (buf : List Nat)
    (h1 : p.ivSize + macSize < buf.length)
    (h2 : buf.length ≤ underlyingBlockSize p)
    (hz : isAllZeros buf = false) :
    (readBlockAux p G sk id check bn buf
        = Except.error (Err.messageVerification id (bn * p.blockSize))
      ↔ (decryptCall p G sk id bn buf).1 = false ∧ check = true)
    ∧ (check = false →
        readBlockAux p G sk id check bn buf
          = Except.ok (buf.length - p.ivSize - macSize,
              (decryptCall p G sk id bn buf).2)) := by
  have hUBS : underlyingBlockSize p = p.ivSize + p.blockSize + macSize := rfl
  have hred : readBlockAux p G sk id check bn buf
      = if check && !(decryptCall p G sk id bn buf).1
        then Except.error (Err.messageVerification id (bn * p.blockSize))
        else Except.ok (buf.length - p.ivSize - macSize,
            (decryptCall p G sk id bn buf).2) := by
    simp only [readBlockAux]
    rw [if_neg (by omega), if_neg (by omega), if_neg (by simp [hz])]
  rw [hred]
  cases hc : check <;> cases hd : (decryptCall p G sk id bn buf).1 <;> simp

/-- Witness for C5: with a scheme that fails authentication, check true,
and a 40-byte non-zero record, read_block throws MessageVerification at
logical offset block_number * block_size. -/
theorem read_block_verification_witness :
    isAllZeros (List.replicate 40 1) = false
    ∧ readBlockAux ⟨12, 32⟩ failScheme [] [] true 0 (List.replicate 40 1)
        = Except.error (Err.messageVerification [] (0 * 32)) :=
  ⟨by decide,
   (read_block_verification ⟨12, 32⟩ failScheme [] [] true 0 (List.replicate 40 1)
      (by decide) (by decide) (by decide)).1.mpr ⟨by decide, rfl⟩⟩

/-- C6: write_block issues exactly one underlying write, of
iv_size + size + mac_size bytes at offset header_size +
block_number * underlying_block_size, laid out as IV then ciphertext
then tag, with a non-all-zero IV and the GCM AAD equal to id followed
by little_endian_u64(block_number). -/
theorem write_block_layout (p : Params) (G : GCMScheme) (hL : GCMLengths G)
    (sk id : List Nat) (ivs : Nat → List Nat)
    (hex : ∃ n, isAllZeros (ivs n) = false)
    (hivlen : ∀ n, (ivs n).length = p.ivSize)
    (u : List Nat) (bn : Nat) (input : List Nat)
    (_hs1 : 1 ≤ input.length) (_hs2 : input.length ≤ p.blockSize) :
    ∃ iv ct tag,
      (write_block p G sk id ivs hex u bn input).2
        = [UOp.uwrite (headerSize + bn * underlyingBlockSize p) (iv ++ (ct ++ tag))]
      ∧ (iv ++ (ct ++ tag)).length = p.ivSize + input.length + macSize
      ∧ iv.length = p.ivSize
      ∧ isAllZeros iv = false
      ∧ ct = (G.encrypt input (id ++ toLittleEndian64 bn) sk iv).1
      ∧ tag = (G.encrypt input (id ++ toLittleEndian64 bn) sk iv).2 := by
  refine ⟨sample_nonzero_iv ivs hex,
    (G.encrypt input (id ++ toLittleEndian64 bn) sk (sample_nonzero_iv ivs hex)).1,
    (G.encrypt input (id ++ toLittleEndian64 bn) sk (sample_nonzero_iv ivs hex)).2,
    ?_, ?_, hivlen _, Nat.find_spec hex, rfl, rfl⟩
  · simp only [write_block, writeBlockRecord]
    rw [Nat.add_comm (bn * underlyingBlockSize p) headerSize]
  · have hc := (hL input (id ++ toLittleEndian64 bn) sk (sample_nonzero_iv ivs hex)).1
    have ht := (hL input (id ++ toLittleEndian64 bn) sk (sample_nonzero_iv ivs hex)).2
    have hi := hivlen (Nat.find hex)
    simp only [List.length_append, sample_nonzero_iv] at *
    omega

/-- Witness for C6: writing the single byte 9 at block 5 on an empty
stream produces one 29-byte write with the stated layout. -/
theorem write_block_layout_witness :
    1 ≤ ([9] : List Nat).length
    ∧ ∃ iv ct tag,
        (write_block ⟨12, 32⟩ idScheme [] [] oneIvs oneIvs_has_nonzero [] 5 [9]).2
          = [UOp.uwrite (headerSize + 5 * underlyingBlockSize ⟨12, 32⟩) (iv ++ (ct ++ tag))]
        ∧ (iv ++ (ct ++ tag)).length = 12 + ([9] : List Nat).length + macSize
        ∧ iv.length = 12
        ∧ isAllZeros iv = false
        ∧ ct = (idScheme.encrypt [9] ([] ++ toLittleEndian64 5) [] iv).1
        ∧ tag = (idScheme.encrypt [9] ([] ++ toLittleEndian64 5) [] iv).2 :=
  ⟨by decide,
   write_block_layout ⟨12, 32⟩ idScheme (fun _ _ _ _ => ⟨rfl, rfl⟩) [] []
     oneIvs oneIvs_has_nonzero (fun _ => rfl) [] 5 [9] (by decide) (by decide)⟩

/-- C2: writing a plaintext P with 1 ≤ length P ≤ block_size at a block
number and reading the same block back on the updated underlying stream
returns the byte count length P and the plaintext P, provided the GCM
scheme inverts encryption under matching key, IV and AAD and the block
written is the last record of the underlying stream. -/
theorem write_then_read_roundtrip (p : Params) (G : GCMScheme)
    (hinv : GCMInverts G) (hL : GCMLengths G)
    (sk id : List Nat) (ivs : Nat → List Nat)
    (hex : ∃ n, isAllZeros (ivs n) = false)
    (hivlen : ∀ n, (ivs n).length = p.ivSize)
    (u : List Nat) (bn : Nat) (P : List Nat) (check : Bool)
    (h1 : 1 ≤ P.length) (h2 : P.length ≤ p.blockSize)
    (hlast : u.length ≤ bn * underlyingBlockSize p + headerSize
        + (p.ivSize + P.length + macSize)) :
    (read_block p G sk id check (write_block p G sk id ivs hex u bn P).1 bn).1
      = Except.ok (P.length, P) := by
  have hUBS : underlyingBlockSize p = p.ivSize + p.blockSize + macSize := rfl
  have hivL : (sample_nonzero_iv ivs hex).length = p.ivSize := hivlen _
  have hivNZ : isAllZeros (sample_nonzero_iv ivs hex) = false := Nat.find_spec hex
  have hctL := (hL P (id ++ toLittleEndian64 bn) sk (sample_nonzero_iv ivs hex)).1
  have htagL := (hL P (id ++ toLittleEndian64 bn) sk (sample_nonzero_iv ivs hex)).2
  have hrecL : (writeBlockRecord G sk id (sample_nonzero_iv ivs hex) bn P).length
      = p.ivSize + P.length + macSize := by
    simp only [writeBlockRecord, List.length_append]
    omega
  have hbuf : streamRead (write_block p G sk id ivs hex u bn P).1
      (headerSize + underlyingBlockSize p * bn) (underlyingBlockSize p)
      = writeBlockRecord G sk id (sample_nonzero_iv ivs hex) bn P := by
    have h3 : headerSize + underlyingBlockSize p * bn
        = bn * underlyingBlockSize p + headerSize := by ring
    rw [h3]
    simp only [write_block]
    rw [streamRead_streamWrite u _ _ _ (by rw [hrecL]; omega)]
    exact List.take_of_length_le (by rw [hrecL, hUBS]; omega)
  have hdec : decryptCall p G sk id bn
      (writeBlockRecord G sk id (sample_nonzero_iv ivs hex) bn P) = (true, P) := by
    have e1 : (writeBlockRecord G sk id (sample_nonzero_iv ivs hex) bn P).length
        - p.ivSize - macSize = P.length := by omega
    have e2 : (writeBlockRecord G sk id (sample_nonzero_iv ivs hex) bn P).length
        - macSize = p.ivSize + P.length := by omega
    have d1 : (writeBlockRecord G sk id (sample_nonzero_iv ivs hex) bn P).drop p.ivSize
        = (G.encrypt P (id ++ toLittleEndian64 bn) sk (sample_nonzero_iv ivs hex)).1
          ++ (G.encrypt P (id ++ toLittleEndian64 bn) sk (sample_nonzero_iv ivs hex)).2 := by
      simp only [writeBlockRecord]
      exact List.drop_left' hivL
    have t1 : ((G.encrypt P (id ++ toLittleEndian64 bn) sk (sample_nonzero_iv ivs hex)).1
          ++ (G.encrypt P (id ++ toLittleEndian64 bn) sk (sample_nonzero_iv ivs hex)).2).take
            P.length
        = (G.encrypt P (id ++ toLittleEndian64 bn) sk (sample_nonzero_iv ivs hex)).1 :=
      List.take_left' hctL
    have i1 : (writeBlockRecord G sk id (sample_nonzero_iv ivs hex) bn P).take p.ivSize
        = sample_nonzero_iv ivs hex := by
      simp only [writeBlockRecord]
      exact List.take_left' hivL
    have g1 : (writeBlockRecord G sk id (sample_nonzero_iv ivs hex) bn P).drop
          (p.ivSize + P.length)
        = (G.encrypt P (id ++ toLittleEndian64 bn) sk (sample_nonzero_iv ivs hex)).2 := by
      simp only [writeBlockRecord, ← List.append_assoc]
      exact List.drop_left' (by simp only [List.length_append]; omega)
    simp only [decryptCall, e1, e2, d1, t1, i1, g1]
    exact hinv P (id ++ toLittleEndian64 bn) sk (sample_nonzero_iv ivs hex)
  show readBlockAux p G sk id check bn
      (streamRead (write_block p G sk id ivs hex u bn P).1
        (headerSize + underlyingBlockSize p * bn) (underlyingBlockSize p))
    = Except.ok (P.length, P)
  rw [hbuf]
  simp only [readBlockAux]
  rw [if_neg (by omega), if_neg (by omega),
    if_neg (by simp only [writeBlockRecord, isAllZeros_append, hivNZ,
      Bool.false_and]; exact Bool.false_ne_true),
    hdec]
  have efin : (writeBlockRecord G sk id (sample_nonzero_iv ivs hex) bn P).length
      - p.ivSize - macSize = P.length := by omega
  rw [efin]
  simp

/-- Witness for C2: a full 32-byte block of the byte 7 written at block
0 of an empty stream reads back unchanged with byte count 32. -/
theorem write_then_read_roundtrip_witness :
    1 ≤ (List.replicate 32 7 : List Nat).length
    ∧ (read_block ⟨12, 32⟩ idScheme [] [] true
        (write_block ⟨12, 32⟩ idScheme [] [] oneIvs oneIvs_has_nonzero [] 0
          (List.replicate 32 7)).1 0).1
      = Except.ok ((List.replicate 32 7 : List Nat).length, List.replicate 32 7) :=
  ⟨by decide,
   write_then_read_roundtrip ⟨12, 32⟩ idScheme (fun _ _ _ _ => rfl)
     (fun _ _ _ _ => ⟨rfl, rfl⟩) [] [] oneIvs oneIvs_has_nonzero
     (fun _ => rfl) [] 0 (List.replicate 32 7) true (by decide) (by decide)
     (by decide)⟩

/-- Unfolding of the constructor on a non-null stream with valid
parameters: the behaviour is decided by the header read count. -/
theorem construct_some (p : Params) (u master_key rand_key : List Nat)
    (h1 : ¬(p.ivSize < 12 ∨ 32 < p.ivSize)) (h2 : ¬(p.blockSize < 32)) :
    construct p (some u) master_key rand_key
      = if (streamRead u 0 32).length = 0 then
          (Except.ok (rand_key, streamWrite u 0 (byteXor rand_key master_key)),
           [UOp.uread 0 32, UOp.uwrite 0 (byteXor rand_key master_key)])
        else if (streamRead u 0 32).length = 32 then
          (Except.ok (byteXor (streamRead u 0 32) master_key, u), [UOp.uread 0 32])
        else (Except.error Err.invalidArgument, [UOp.uread 0 32]) := by
  simp only [construct]
  rw [if_neg h1, if_neg h2]

/-- C8: construction fails with InvalidArgument exactly when iv_size is
below 12 or above 32, the underlying stream is null, block_size is below
32, or the header read returns a count other than 0 or 32; on any such
failure no operation that mutates the underlying stream has been issued
(in particular no header is written). -/
theorem construct_invalid_argument (p : Params) (stream : Option (List Nat))
    (master_key rand_key : List Nat) :
    ((construct p stream master_key rand_key).1 = Except.error Err.invalidArgument
      ↔ (p.ivSize < 12 ∨ 32 < p.ivSize ∨ stream = none ∨ p.blockSize < 32
          ∨ ∃ u, stream = some u ∧ (streamRead u 0 32).length ≠ 0
              ∧ (streamRead u 0 32).length ≠ 32))
    ∧ ((construct p stream master_key rand_key).1 = Except.error Err.invalidArgument →
        ((construct p stream master_key rand_key).2.all fun op => !op.isMutation)
          = true) := by
  cases stream with
  | none =>
    constructor
    · constructor
      · intro _
        exact Or.inr (Or.inr (Or.inl rfl))
      · intro _
        simp only [construct]
        by_cases h : p.ivSize < 12 ∨ 32 < p.ivSize
        · rw [if_pos h]
        · rw [if_neg h]
    · intro _
      simp only [construct]
      by_cases h : p.ivSize < 12 ∨ 32 < p.ivSize
      · rw [if_pos h]; rfl
      · rw [if_neg h]; rfl
  | some u =>
    by_cases h1 : p.ivSize < 12 ∨ 32 < p.ivSize
    · constructor
      · constructor
        · intro _
          rcases h1 with h1 | h1
          · exact Or.inl h1
          · exact Or.inr (Or.inl h1)
        · intro _
          simp only [construct]
          rw [if_pos h1]
      · intro _
        simp only [construct]
        rw [if_pos h1]
        rfl
    · by_cases h2 : p.blockSize < 32
      · constructor
        · constructor
          · intro _
            exact Or.inr (Or.inr (Or.inr (Or.inl h2)))
          · intro _
            simp only [construct]
            rw [if_neg h1, if_pos h2]
        · intro _
          simp only [construct]
          rw [if_neg h1, if_pos h2]
          rfl
      · rw [construct_some p u master_key rand_key h1 h2]
        by_cases h3 : (streamRead u 0 32).length = 0
        · rw [if_pos h3]
          constructor
          · constructor
            · intro hcontra
              exact absurd hcontra (by simp)
            · intro hcond
              rcases hcond with hc | hc | hc | hc | ⟨u', hu', hz, _⟩
              · exact absurd hc (by omega)
              · exact absurd hc (by omega)
              · exact absurd hc (by simp)
              · exact absurd hc h2
              · rw [Option.some.injEq] at hu'
                exact absurd (hu' ▸ h3) hz
          · intro hcontra
            exact absurd hcontra (by simp)
        · rw [if_neg h3]
          by_cases h4 : (streamRead u 0 32).length = 32
          · rw [if_pos h4]
            constructor
            · constructor
              · intro hcontra
                exact absurd hcontra (by simp)
              · intro hcond
                rcases hcond with hc | hc | hc | hc | ⟨u', hu', _, hz⟩
                · exact absurd hc (by omega)
                · exact absurd hc (by omega)
                · exact absurd hc (by simp)
                · exact absurd hc h2
                · rw [Option.some.injEq] at hu'
                  exact absurd (hu' ▸ h4) hz
            · intro hcontra
              exact absurd hcontra (by simp)
          · rw [if_neg h4]
            exact ⟨⟨fun _ => Or.inr (Or.inr (Or.inr (Or.inr ⟨u, rfl, h3, h4⟩))),
              fun _ => rfl⟩, fun _ => rfl⟩

/-- Witness for C8: with valid parameters and a 10-byte underlying
stream, the header read returns 10 bytes and construction fails with
InvalidArgument, having issued only the header read. -/
theorem construct_invalid_argument_witness :
    (construct ⟨12, 32⟩ (some (List.replicate 10 0)) [] []).1
        = Except.error Err.invalidArgument
    ∧ ((construct ⟨12, 32⟩ (some (List.replicate 10 0)) [] []).2.all
        fun op => !op.isMutation) = true :=
  ⟨rfl,
   (construct_invalid_argument ⟨12, 32⟩ (some (List.replicate 10 0)) [] []).2 rfl⟩

/-- C9: on a fresh (empty) underlying stream the constructor stores
session_key XOR master_key as the 32-byte header at offset 0; reopening
with the same master key recovers exactly the session key, and
reopening with a different master key recovers session_key XOR
master_key XOR other_key, which differs from the session key. -/
theorem header_session_key_recovery (p : Params) (M M' R : List Nat)
    (hM : M.length = 32) (hM' : M'.length = 32) (hR : R.length = 32)
    (hne : M ≠ M')
    (hiv1 : 12 ≤ p.ivSize) (hiv2 : p.ivSize ≤ 32) (hbs : 32 ≤ p.blockSize) :
    (construct p (some []) M R).1 = Except.ok (R, byteXor R M)
    ∧ streamRead (byteXor R M) 0 32 = byteXor R M
    ∧ (construct p (some (byteXor R M)) M R).1 = Except.ok (R, byteXor R M)
    ∧ (construct p (some (byteXor R M)) M' R).1
        = Except.ok (byteXor (byteXor R M) M', byteXor R M)
    ∧ byteXor (byteXor R M) M' ≠ R := by
  have hvalid1 : ¬(p.ivSize < 12 ∨ 32 < p.ivSize) := by omega
  have hvalid2 : ¬(p.blockSize < 32) := by omega
  have hL32 : (byteXor R M).length = 32 := by
    simp [byteXor, hR, hM]
  have hread : streamRead (byteXor R M) 0 32 = byteXor R M :=
    streamRead_all _ _ (by omega)
  have hfirst : (construct p (some []) M R).1 = Except.ok (R, byteXor R M) := by
    rw [construct_some p [] M R hvalid1 hvalid2]
    have h0 : (streamRead [] 0 32).length = 0 := rfl
    rw [if_pos h0]
    simp [streamWrite_nil]
  have hsame : (construct p (some (byteXor R M)) M R).1
      = Except.ok (byteXor (byteXor R M) M, byteXor R M) := by
    rw [construct_some p _ M R hvalid1 hvalid2]
    rw [if_neg (by rw [hread, hL32]; omega), if_pos (by rw [hread, hL32])]
    rw [hread]
  have hother : (construct p (some (byteXor R M)) M' R).1
      = Except.ok (byteXor (byteXor R M) M', byteXor R M) := by
    rw [construct_some p _ M' R hvalid1 hvalid2]
    rw [if_neg (by rw [hread, hL32]; omega), if_pos (by rw [hread, hL32])]
    rw [hread]
  refine ⟨hfirst, hread, ?_, hother, ?_⟩
  · rw [hsame, byteXor_cancel R M (by rw [hR, hM])]
  · intro hcontra
    exact hne (byteXor_cancel_inj R M M' (by rw [hR, hM]) (by rw [hM, hM']) hcontra)

/-- Witness for C9: concrete 32-byte keys with master keys of bytes 1
and 2 and a random session key of bytes 3. -/
theorem header_session_key_recovery_witness :
    (List.replicate 32 1 : List Nat) ≠ List.replicate 32 2
    ∧ ((construct ⟨12, 32⟩ (some []) (List.replicate 32 1) (List.replicate 32 3)).1
        = Except.ok (List.replicate 32 3,
            byteXor (List.replicate 32 3) (List.replicate 32 1))
      ∧ streamRead (byteXor (List.replicate 32 3) (List.replicate 32 1)) 0 32
          = byteXor (List.replicate 32 3) (List.replicate 32 1)
      ∧ (construct ⟨12, 32⟩
            (some (byteXor (List.replicate 32 3) (List.replicate 32 1)))
            (List.replicate 32 1) (List.replicate 32 3)).1
          = Except.ok (List.replicate 32 3,
              byteXor (List.replicate 32 3) (List.replicate 32 1))
      ∧ (construct ⟨12, 32⟩
            (some (byteXor (List.replicate 32 3) (List.replicate 32 1)))
            (List.replicate 32 2) (List.replicate 32 3)).1
          = Except.ok (byteXor (byteXor (List.replicate 32 3) (List.replicate 32 1))
                (List.replicate 32 2),
              byteXor (List.replicate 32 3) (List.replicate 32 1))
      ∧ byteXor (byteXor (List.replicate 32 3) (List.replicate 32 1))
            (List.replicate 32 2)
          ≠ List.replicate 32 3) :=
  ⟨by decide,
   header_session_key_recovery ⟨12, 32⟩ (List.replicate 32 1) (List.replicate 32 2)
     (List.replicate 32 3) (by decide) (by decide) (by decide) (by decide)
     (by decide) (by decide) (by decide)⟩

end securefs
